import Mathlib

/-!
Shallow embedding of the core of the `mcdev-mcp` repository (a symbol
indexer and call-graph store for decompiled Java sources) and proofs about
it.  JavaScript strings are modelled as `List Char`; JavaScript numbers
that hold line counters or brace depths are modelled as `Nat`/`Int` as
appropriate; fallible operations return `Option`/`Except`.

Sections follow the source tree:
* `src/callgraph/index.ts` — dump ingestion (`parseCallgraphAndCreateDb`);
* `src/callgraph/query.ts` — `openDb`/`closeDb`/`findCallers`/`findCallees`/
  `searchMethods`/`getCallgraphStats`;
* `src/indexer/parser.ts` — the regex-driven declaration parser;
* `src/storage` (`SourceStore`) — manifest/shard loading, `search`,
  `getClass`, `getMethod`, excerpt extraction.
-/

namespace Mcdev

/-- JavaScript strings are modelled as lists of characters. -/
abbrev Str := List Char

/-- Convert a Lean string literal to the model type. -/
def str (s : String) : Str := s.toList

/-- Characters matched by the JavaScript `\s` class (the ASCII part, which
is all the inputs of this program use). -/
def wsChar (c : Char) : Bool :=
  c = ' ' || c = '\t' || c = '\n' || c = '\r' || c = '\x0b' || c = '\x0c'

/-- Characters matched by the JavaScript `\w` class. -/
def isWordChar (c : Char) : Bool :=
  ('a' ≤ c && c ≤ 'z') || ('A' ≤ c && c ≤ 'Z') || ('0' ≤ c && c ≤ '9') || c = '_'

/-- ASCII lower-casing, as applied by `toLowerCase` to the identifiers this
program handles. -/
def lowerChar (c : Char) : Char :=
  if 'A' ≤ c && c ≤ 'Z' then Char.ofNat (c.toNat + 32) else c

/-- `s.toLowerCase()`. -/
def lower (s : Str) : Str := s.map lowerChar

/-- `s.trim()` (strip leading and trailing whitespace). -/
def trim (s : Str) : Str :=
  ((s.dropWhile wsChar).reverse.dropWhile wsChar).reverse

/-- `s.split(sep)` for a one-character separator. -/
def splitOn (sep : Char) : Str → List Str
  | [] => [[]]
  | c :: rest =>
    if c = sep then [] :: splitOn sep rest
    else match splitOn sep rest with
      | [] => [[c]]
      | p :: ps => (c :: p) :: ps

/-- `a.startsWith(b)` / regex literal matching: if `b` is a prefix of `a`,
return the remainder. -/
def lit : Str → Str → Option Str
  | [], s => some s
  | _ :: _, [] => none
  | c :: cs, x :: xs => if x = c then lit cs xs else none

/-- `hay.includes(needle)` (substring containment). -/
def includes (hay needle : Str) : Bool :=
  hay.tails.any (fun t => needle.isPrefixOf t)

/-- JavaScript `parseInt(s, 10)`: skip leading whitespace, optional sign,
then a digit prefix; `none` models `NaN`. -/
def jsParseInt (s : Str) : Option Int :=
  let cs := s.dropWhile wsChar
  let (neg, cs2) : Bool × Str :=
    match cs with
    | '-' :: r => (true, r)
    | '+' :: r => (false, r)
    | _ => (false, cs)
  let ds := cs2.takeWhile Char.isDigit
  if ds.isEmpty then none
  else
    let v : Nat := ds.foldl (fun acc c => acc * 10 + (c.toNat - '0'.toNat)) 0
    some (if neg then -(v : Int) else (v : Int))

/-!
## Call-graph ingestion — `parseCallgraphAndCreateDb` (src/callgraph/index.ts)

A dump line is kept when it is non-blank, not a `#` comment, has at least
5 TAB-separated fields, and both the caller token (field 2, 0-indexed)
matches `^(.+):(.+)(\([^)]*\))$` and the callee token (field 3) matches
`^\([A-Z]+\)(.+):(.+)(\([^)]*\))$`.  The two regexes are embedded below
with their exact greedy/backtracking semantics: the outer `(.+)` tries the
rightmost feasible `:`, the inner `(.+)` the longest method name leaving a
trailing `\([^)]*\)` group.
-/

/-- Does this list have the exact shape `[^)]*` followed by a final `)`? -/
def isParenTail : Str → Bool
  | [] => false
  | [c] => c = ')'
  | c :: rest => c ≠ ')' && isParenTail rest

/-- Does this list match `\([^)]*\)` exactly? -/
def isParenGroup : Str → Bool
  | '(' :: rest => isParenTail rest
  | _ => false

/-- Try split points for `(.+)(\([^)]*\))$` on `t`, longest first group
first (greedy): argument `n` is the length of the candidate first group. -/
def findSplit (t : Str) : Nat → Option (Str × Str)
  | 0 => none
  | i + 1 =>
    if isParenGroup (t.drop (i + 1)) then some (t.take (i + 1), t.drop (i + 1))
    else findSplit t i

/-- Match `(.+)(\([^)]*\))$` against the whole of `t`. -/
def matchTail (t : Str) : Option (Str × Str) :=
  findSplit t (t.length - 1)

/-- Try colon positions for `^(.+):(.+)(\([^)]*\))$`, rightmost first
(greedy backtracking of the leading `(.+)`). -/
def mcAux (s : Str) : Nat → Option (Str × Str × Str)
  | 0 => none
  | c + 1 =>
    if s.getD (c + 1) 'x' = ':' then
      match matchTail (s.drop (c + 2)) with
      | some (g2, g3) => some (s.take (c + 1), g2, g3)
      | none => mcAux s c
    else mcAux s c

/-- The caller-token regex `^(.+):(.+)(\([^)]*\))$` applied to the whole
string, returning the three capture groups. -/
def matchCallerTok (s : Str) : Option (Str × Str × Str) :=
  mcAux s s.length

/-- `[A-Z]`. -/
def isUpperAZ (c : Char) : Bool := 'A' ≤ c && c ≤ 'Z'

/-- The callee-token regex `^\([A-Z]+\)(.+):(.+)(\([^)]*\))$`; the
`[A-Z]+` run is deterministic because `)` is not an upper-case letter. -/
def matchCalleeTok (s : Str) : Option (Str × Str × Str) :=
  match s with
  | '(' :: rest =>
    let run := rest.takeWhile isUpperAZ
    if run.isEmpty then none
    else
      match rest.dropWhile isUpperAZ with
      | ')' :: tail => matchCallerTok tail
      | _ => none
  | _ => none

/-- One row of the `calls` table. -/
structure CallRow where
  callerClass : Str
  callerMethod : Str
  callerDesc : Str
  calleeClass : Str
  calleeMethod : Str
  calleeDesc : Str
  lineNumber : Option Int
deriving DecidableEq, Repr

/-- Process one dump line: the skip rules and token parsing of the loop
body in `parseCallgraphAndCreateDb`. -/
def processLine (line : Str) : Option CallRow :=
  if trim line = [] || line.headD 'x' = '#' then none
  else
    let parts := splitOn '\t' line
    if parts.length < 5 then none
    else
      match matchCallerTok (parts.getD 2 []), matchCalleeTok (parts.getD 3 []) with
      | some (c1, m1, d1), some (c2, m2, d2) =>
        some { callerClass := c1, callerMethod := m1, callerDesc := d1
               calleeClass := c2, calleeMethod := m2, calleeDesc := d2
               lineNumber :=
                 if parts.getD 4 [] = [] then none else jsParseInt (parts.getD 4 []) }
      | _, _ => none

/-- One step of the batched insert loop: accumulate a matched row into the
current batch and flush the batch (appending it to the stored rows and
adding its size to the running count) once it reaches 10000 rows. -/
def ingestStep (acc : List CallRow × List CallRow × Nat) (line : Str) :
    List CallRow × List CallRow × Nat :=
  let (stored, batch, count) := acc
  match processLine line with
  | none => (stored, batch, count)
  | some row =>
    let batch' := batch ++ [row]
    if 10000 ≤ batch'.length then (stored ++ batch', [], count + batch'.length)
    else (stored, batch', count)

/-- `parseCallgraphAndCreateDb`: split the dump into lines, run the batch
loop, flush the final partial batch; returns the stored rows (the fresh
`calls` table, in insertion order) and the returned count. -/
def parseCallgraphAndCreateDb (content : Str) : List CallRow × Nat :=
  let acc := (splitOn '\n' content).foldl ingestStep ([], [], 0)
  (acc.1 ++ acc.2.1, acc.2.2 + acc.2.1.length)

/-!
## Call-graph query layer (src/callgraph/query.ts)

The module-level `let db` handle is modelled as an `Option Str` holding
the version whose database file the handle was opened on; the file system
is a map `Str → Option (List CallRow)` from version to the rows of its
store, fixed for the duration of a query session.
-/

/-- The message of the error thrown when the database file is missing. -/
def dbMissingMsg : String := "Callgraph database not found. Run `mcdev-mcp callgraph` first."

/-- `openDb(version)`: return the cached handle if one is set (without
consulting `version`), otherwise open the requested version's store or
throw. Returns the new handle state together with the handle. -/
def openDb (stores : Str → Option (List CallRow)) (st : Option Str) (version : Str) :
    Except String (Option Str × Str) :=
  match st with
  | some h => .ok (some h, h)
  | none =>
    match stores version with
    | some _ => .ok (some version, version)
    | none => .error dbMissingMsg

/-- `closeDb()`: reset the cached handle. -/
def closeDb (_st : Option Str) : Option Str := none

/-- The rows visible through a handle. -/
def rowsOf (stores : Str → Option (List CallRow)) (h : Str) : List CallRow :=
  (stores h).getD []

/-- A `MethodRef` result record. -/
structure MethodRef where
  className : Str
  methodName : Str
  descriptor : Str
  fullName : Str
  lineNumber : Option Int
deriving DecidableEq, Repr

/-- Project a row to its caller side. -/
def projCaller (r : CallRow) : MethodRef :=
  { className := r.callerClass, methodName := r.callerMethod
    descriptor := r.callerDesc
    fullName := r.callerClass ++ str "." ++ r.callerMethod
    lineNumber := r.lineNumber }

/-- Project a row to its callee side. -/
def projCallee (r : CallRow) : MethodRef :=
  { className := r.calleeClass, methodName := r.calleeMethod
    descriptor := r.calleeDesc
    fullName := r.calleeClass ++ str "." ++ r.calleeMethod
    lineNumber := r.lineNumber }

/-- The SQL of `findCallers`: rows whose callee side equals `(cls, mth)`,
in insertion order, at most 100, projected to the caller side. -/
def findCallersQ (rows : List CallRow) (cls mth : Str) : List MethodRef :=
  ((rows.filter (fun r => r.calleeClass = cls && r.calleeMethod = mth)).take 100).map projCaller

/-- The SQL of `findCallees`, symmetric to `findCallersQ`. -/
def findCalleesQ (rows : List CallRow) (cls mth : Str) : List MethodRef :=
  ((rows.filter (fun r => r.callerClass = cls && r.callerMethod = mth)).take 100).map projCallee

/-- `findCallers(version, className, methodName)`. -/
def findCallers (stores : Str → Option (List CallRow)) (st : Option Str)
    (version cls mth : Str) : Except String (Option Str × List MethodRef) := do
  let (st', h) ← openDb stores st version
  .ok (st', findCallersQ (rowsOf stores h) cls mth)

/-- `findCallees(version, className, methodName)`. -/
def findCallees (stores : Str → Option (List CallRow)) (st : Option Str)
    (version cls mth : Str) : Except String (Option Str × List MethodRef) := do
  let (st', h) ← openDb stores st version
  .ok (st', findCalleesQ (rowsOf stores h) cls mth)

/-- SQLite `LIKE '%q%'` (ASCII case-insensitive containment). -/
def likeContains (s q : Str) : Bool := includes (lower s) (lower q)

/-- The SQL of `searchMethods`: distinct callee-side hits united with
distinct caller-side hits, capped at `limit`. -/
def searchMethodsQ (rows : List CallRow) (q : Str) (limit : Nat) : List MethodRef :=
  let calleeRefs := (rows.filter
      (fun r => likeContains r.calleeClass q || likeContains r.calleeMethod q)).map
    (fun r => (r.calleeClass, r.calleeMethod, r.calleeDesc))
  let callerRefs := (rows.filter
      (fun r => likeContains r.callerClass q || likeContains r.callerMethod q)).map
    (fun r => (r.callerClass, r.callerMethod, r.callerDesc))
  (((calleeRefs ++ callerRefs).dedup).take limit).map
    (fun t => { className := t.1, methodName := t.2.1, descriptor := t.2.2
                fullName := t.1 ++ str "." ++ t.2.1, lineNumber := none })

/-- `searchMethods(version, query, limit)`. -/
def searchMethods (stores : Str → Option (List CallRow)) (st : Option Str)
    (version q : Str) (limit : Nat) : Except String (Option Str × List MethodRef) := do
  let (st', h) ← openDb stores st version
  .ok (st', searchMethodsQ (rowsOf stores h) q limit)

/-- The stats record returned by `getCallgraphStats`. -/
structure CgStats where
  totalCalls : Nat
  uniqueCallers : Nat
  uniqueCallees : Nat
deriving DecidableEq, Repr

/-- The aggregate queries of `getCallgraphStats`: `COUNT(*)` and
`COUNT(DISTINCT caller_class || caller_method)` /
`COUNT(DISTINCT callee_class || callee_method)` — note the separator-less
string concatenation. -/
def statsQ (rows : List CallRow) : CgStats :=
  { totalCalls := rows.length
    uniqueCallers := ((rows.map (fun r => r.callerClass ++ r.callerMethod)).dedup).length
    uniqueCallees := ((rows.map (fun r => r.calleeClass ++ r.calleeMethod)).dedup).length }

/-- `getCallgraphStats(version)`: `none` if the version's store file does
not exist (handle state untouched), otherwise run the aggregates through
`openDb` and close the handle. -/
def getCallgraphStats (stores : Str → Option (List CallRow)) (st : Option Str)
    (version : Str) : Except String (Option Str × Option CgStats) :=
  match stores version with
  | none => .ok (st, none)
  | some _ => do
    let (st', h) ← openDb stores st version
    .ok (closeDb st', some (statsQ (rowsOf stores h)))

/-- The number of distinct `(callerType, callerMethod)` keys of a store
(the quantity the specification says `distinctCallers` reports). -/
def distinctCallerKeys (rows : List CallRow) : Nat :=
  ((rows.map (fun r => (r.callerClass, r.callerMethod))).dedup).length

/-- The number of distinct `(calleeType, calleeMethod)` keys of a store. -/
def distinctCalleeKeys (rows : List CallRow) : Nat :=
  ((rows.map (fun r => (r.calleeClass, r.calleeMethod))).dedup).length

/-!
## Declaration parser (src/indexer/parser.ts)

Each regular expression of the parser is embedded as a recursive-descent
matcher over `List Char` with the regex's leftmost-match and greedy
(backtracking) semantics.  Greedy repetitions whose follow-set is disjoint
from their character class (for example `\w+` followed by `\s`, or
`[^>]+` followed by `>`) are matched by deterministic maximal munch, which
agrees with the backtracking engine; optional groups are matched by trying
the group first and falling back to the continuation via `<|>`.
-/

/-- `\s*`: maximal munch of whitespace. -/
def ws0 (s : Str) : Str := s.dropWhile wsChar

/-- `\s+`: at least one whitespace character, then maximal munch. -/
def ws1 (s : Str) : Option Str :=
  if wsChar (s.headD 'x') then some (s.dropWhile wsChar) else none

/-- `\w+`: maximal non-empty run of word characters, returned with the
rest. -/
def word1 (s : Str) : Option (Str × Str) :=
  let w := s.takeWhile isWordChar
  if w.isEmpty then none else some (w, s.drop w.length)

/-- The alternation `public|protected|private` (the literals are mutually
exclusive at any one position). -/
def vis3 (s : Str) : Option Str :=
  lit (str "public") s <|> lit (str "protected") s <|> lit (str "private") s

/-- An optional `(?:kw\s+)?` group: try the keyword path, fall back to the
continuation without it. -/
def optKw (w : String) (s : Str) (k : Str → Option α) : Option α :=
  (do
    let s1 ← lit (str w) s
    let s2 ← ws1 s1
    k s2) <|> k s

/-- The optional `(?:abstract\s+|final\s+)?` group. -/
def optAF (s : Str) (k : Str → Option α) : Option α :=
  (do
    let s1 ← lit (str "abstract") s
    let s2 ← ws1 s1
    k s2) <|>
  (do
    let s1 ← lit (str "final") s
    let s2 ← ws1 s1
    k s2) <|> k s

/-- The optional generic suffix `(?:<[^>]+>)?` of a type token; returns
the consumed text and the rest (consuming nothing when absent). -/
def matchGeneric (s : Str) : Str × Str :=
  match s with
  | '<' :: rest =>
    let mid := rest.takeWhile (· ≠ '>')
    (match rest.drop mid.length with
     | '>' :: r2 => if mid.isEmpty then ([], s) else ('<' :: (mid ++ ['>']), r2)
     | _ => ([], s))
  | _ => ([], s)

/-- The array suffix `(?:\[\])*` of a type token. -/
def matchBrackets : Str → Str × Str
  | '[' :: ']' :: rest =>
    let (b, r) := matchBrackets rest
    ('[' :: ']' :: b, r)
  | s => ([], s)

/-- The type-token capture `(\w+(?:<[^>]+>)?(?:\[\])*)`. -/
def typeTok (s : Str) : Option (Str × Str) := do
  let (w, s1) ← word1 s
  let (g, s2) := matchGeneric s1
  let (b, s3) := matchBrackets s2
  some (w ++ g ++ b, s3)

/-- `cleanTypeName`: delete the characters `<ANGLE>`, `[`, `]` (the regex
`[<>\[\]]`), delete all whitespace, keep the first `.`-segment; when that
segment is empty, fall back to the original string (the `|| type`). -/
def cleanTypeName (t : Str) : Str :=
  let stripped := (t.filter
    (fun c => !(c == '<' || c == '>' || c == '[' || c == ']'))).filter (fun c => !wsChar c)
  let first := stripped.takeWhile (· ≠ '.')
  if first.isEmpty then t else first

/-- The fixed modifier vocabulary scanned by `extractModifiers`. -/
def modKeywords : List String :=
  ["public", "protected", "private", "static", "final", "abstract",
   "synchronized", "volatile", "transient", "native"]

/-- Word-boundary okay on the left of a candidate occurrence. -/
def prevNW : Option Char → Bool
  | none => true
  | some c => !isWordChar c

/-- Word-boundary okay on the right of a candidate occurrence. -/
def nextNW : Str → Bool
  | [] => true
  | c :: _ => !isWordChar c

/-- Scan for an occurrence of `w` with word boundaries on both sides
(the test `\bw\b`), tracking the previous character. -/
def hasWordGo (w : Str) : Option Char → Str → Bool
  | prev, [] => w.isEmpty && prevNW prev
  | prev, c :: rest =>
    (prevNW prev && w.isPrefixOf (c :: rest) && nextNW ((c :: rest).drop w.length))
    || hasWordGo w (some c) rest

/-- `new RegExp('\\b' + mod + '\\b').test(declaration)`. -/
def hasWordTok (declTxt : Str) (w : String) : Bool := hasWordGo (str w) none declTxt

/-- `extractModifiers`: the modifier keywords present in the matched
declaration text, in vocabulary order. -/
def extractModifiers (declTxt : Str) : List Str :=
  (modKeywords.filter (fun m => hasWordTok declTxt m)).map str

/-- `splitParams`: split on top-level commas, tracking `<`/`(` depth; the
final segment is kept only when its trim is non-empty. -/
def splitParamsGo : Str → Int → Str → List Str
  | [], _, current => if trim current = [] then [] else [current]
  | c :: rest, depth, current =>
    if c == '<' || c == '(' then splitParamsGo rest (depth + 1) (current ++ [c])
    else if c == '>' || c == ')' then splitParamsGo rest (depth - 1) (current ++ [c])
    else if c == ',' && depth == 0 then current :: splitParamsGo rest depth []
    else splitParamsGo rest depth (current ++ [c])

def splitParams (paramsStr : Str) : List Str := splitParamsGo paramsStr 0 []

/-- The per-parameter regex `/(?:final\s+)?(\w+(?:<[^>]+>)?(?:\[\])*)\s+(\w+)$/`
tried at one start position (the `$` anchor demands the name run ends the
string). -/
def paramAt (s : Str) : Option (Str × Str) :=
  optKw "final" s fun s1 => do
    let (t, s2) ← typeTok s1
    let s3 ← ws1 s2
    let (nm, s4) ← word1 s3
    if s4.isEmpty then some (t, nm) else none

/-- Leftmost match of the per-parameter regex. -/
def paramFind : Str → Option (Str × Str)
  | [] => none
  | s@(_ :: rest) => (paramAt s).orElse fun _ => paramFind rest

/-- `parseParams`: split the parameter text and extract each trailing
`Type name` pair, cleaning the type. -/
def parseParams (paramsStr : Str) : List (Str × Str) :=
  if trim paramsStr = [] then []
  else
    (splitParams paramsStr).filterMap fun part =>
      let trimmed := trim part
      if trimmed = [] then none
      else (paramFind trimmed).map fun p => (cleanTypeName p.1, p.2)

/-- A parsed field declaration. -/
structure FieldInfo where
  name : Str
  type : Str
  modifiers : List Str
deriving DecidableEq, Repr

/-- The field regex
`/(?:public|protected|private)\s+(?:static\s+)?(?:final\s+)?(\w+(?:<[^>]+>)?(?:\[\])*)\s+(\w+)\s*(?:=|;)/`
tried at one start position; returns type capture, name capture and the
rest after the match. -/
def fieldAt (s : Str) : Option (Str × Str × Str) := do
  let s1 ← vis3 s
  let s2 ← ws1 s1
  optKw "static" s2 fun s3 =>
  optKw "final" s3 fun s4 => do
    let (t, s5) ← typeTok s4
    let s6 ← ws1 s5
    let (nm, s7) ← word1 s6
    match ws0 s7 with
    | '=' :: rest => some (t, nm, rest)
    | ';' :: rest => some (t, nm, rest)
    | _ => none

/-- Number of newline characters of a prefix. -/
def countNl (cs : Str) : Nat := (cs.filter (· == '\n')).length

/-- The `exec` loop of `extractFields`: find each leftmost match from the
current position, skip matches whose source line contains a parenthesis,
and resume after the match. -/
def scanFields (content : Str) (lines : List Str) : Nat → Nat → List FieldInfo
  | 0, _ => []
  | fuel + 1, pos =>
    match fieldAt (content.drop pos) with
    | some (t, nm, rest) =>
      let consumed := (content.drop pos).length - rest.length
      let lineNum := countNl (content.take pos) + 1
      let lineContent := lines.getD (lineNum - 1) []
      let entry :=
        if lineContent.contains '(' || lineContent.contains ')' then []
        else [{ name := nm, type := cleanTypeName t,
                modifiers := extractModifiers ((content.drop pos).take consumed) : FieldInfo }]
      entry ++ scanFields content lines fuel (pos + consumed)
    | none =>
      if pos < content.length then scanFields content lines fuel (pos + 1) else []

def extractFields (content : Str) (lines : List Str) : List FieldInfo :=
  scanFields content lines (content.length + 1) 0

/-- A parsed method declaration. -/
structure MethodInfo where
  name : Str
  returnType : Str
  params : List (Str × Str)
  modifiers : List Str
  lineStart : Nat
  lineEnd : Nat
deriving DecidableEq, Repr

/-- `findMethodEnd`'s walk: step through the remaining characters keeping
the newline count so far, the brace depth, and whether an opening brace
has been seen; answer the 1-based line of the `}` at which the depth
returns to zero. -/
def fmeGo : Str → Nat → Int → Bool → Option Nat
  | [], _, _, _ => none
  | c :: rest, nl, bc, fo =>
    if c = '{' then fmeGo rest nl (bc + 1) true
    else if c = '}' then
      if fo && (bc - 1 == 0) then some (nl + 1)
      else fmeGo rest nl (bc - 1) fo
    else if c = '\n' then fmeGo rest (nl + 1) bc fo
    else fmeGo rest nl bc fo

/-- `findMethodEnd(content, startIndex)`. -/
def findMethodEnd (content : Str) (startIndex : Nat) : Option Nat :=
  fmeGo (content.drop startIndex) (countNl (content.take startIndex)) 0 false

/-- JavaScript `a || b` on an optional number (`0` is falsy). -/
def jsOrNat (o : Option Nat) (d : Nat) : Nat :=
  match o with
  | some n => if n = 0 then d else n
  | none => d

/-- The `lineEnd` computation of `extractMethods`:
`findMethodEnd(content, match.index) || lineStart + 10`. -/
def methodLineEnd (content : Str) (matchIndex lineStart : Nat) : Nat :=
  jsOrNat (findMethodEnd content matchIndex) (lineStart + 10)

/-- One annotation of the leading `(?:@[\w.]+(?:\([^)]*\))?\s*)*` group. -/
def annotOne (s : Str) : Option Str :=
  match s with
  | '@' :: rest =>
    let nm := rest.takeWhile (fun c => isWordChar c || c == '.')
    if nm.isEmpty then none
    else
      let r1 := rest.drop nm.length
      let r2 :=
        match r1 with
        | '(' :: r =>
          let mid := r.takeWhile (· ≠ ')')
          (match r.drop mid.length with
           | ')' :: r3 => r3
           | _ => r1)
        | _ => r1
      some (ws0 r2)
  | _ => none

/-- The greedy star over annotations, with backtracking into the
continuation (`fuel` bounds the iteration count by the text length). -/
def annotStar : Nat → Str → (Str → Option α) → Option α
  | 0, s, k => k s
  | fuel + 1, s, k =>
    (do
      let s1 ← annotOne s
      annotStar fuel s1 k) <|> k s

/-- The character class `[\w.,\s]` of the `throws` clause. -/
def throwsCls (c : Char) : Bool := isWordChar c || c == '.' || c == ',' || wsChar c

/-- The optional `(?:throws\s+[\w.,\s]+)?` group. -/
def throwsOpt (s : Str) (k : Str → Option α) : Option α :=
  (do
    let s1 ← lit (str "throws") s
    let s2 ← ws1 s1
    let run := s2.takeWhile throwsCls
    if run.isEmpty then none else k (s2.drop run.length)) <|> k s

/-- The optional `(?:public|protected|private)?\s*` prefix of the method
regex (note: `\s*`, not `\s+`, after the keyword). -/
def optVis (s : Str) (k : Str → Option α) : Option α :=
  (do
    let s1 ← vis3 s
    k (ws0 s1)) <|> k (ws0 s)

/-- The method regex tried at one start position; returns the return-type
capture, name capture, parameter-list capture, and the rest after the
match. -/
def methodAt (s : Str) : Option (Str × Str × Str × Str) :=
  annotStar s.length s fun s1 =>
  optVis s1 fun s2 =>
  optKw "static" s2 fun s3 =>
  optKw "final" s3 fun s4 =>
  optKw "abstract" s4 fun s5 =>
  optKw "synchronized" s5 fun s6 => do
    let (t, s7) ← typeTok s6
    let s8 ← ws1 s7
    let (nm, s9) ← word1 s8
    let s10 := ws0 s9
    match s10 with
    | '(' :: r =>
      let ps := r.takeWhile (· ≠ ')')
      (match r.drop ps.length with
       | ')' :: r2 =>
         throwsOpt (ws0 r2) fun r4 =>
           match ws0 r4 with
           | '{' :: rest => some (t, nm, ps, rest)
           | ';' :: rest => some (t, nm, ps, rest)
           | _ => none
       | _ => none)
    | _ => none

/-- The `exec` loop of `extractMethods`: find each leftmost match, skip
control-flow keywords and the (vacuous) capitalised-name check, record the
method with its line range, resume after the match. -/
def scanMethods (content : Str) : Nat → Nat → List MethodInfo
  | 0, _ => []
  | fuel + 1, pos =>
    match methodAt (content.drop pos) with
    | some (t, nm, ps, rest) =>
      let consumed := (content.drop pos).length - rest.length
      let skipKw :=
        t == str "class" || nm == str "if" || nm == str "while" || nm == str "for" ||
          nm == str "switch" || nm == str "catch"
      let skipCtor := isUpperAZ (nm.headD 'a') && t.isEmpty
      let lineStart := countNl (content.take pos) + 1
      let entry :=
        if skipKw || skipCtor then []
        else [{ name := nm, returnType := cleanTypeName t, params := parseParams ps,
                modifiers := extractModifiers ((content.drop pos).take consumed),
                lineStart := lineStart,
                lineEnd := methodLineEnd content pos lineStart : MethodInfo }]
      entry ++ scanMethods content fuel (pos + consumed)
    | none =>
      if pos < content.length then scanMethods content fuel (pos + 1) else []

def extractMethods (content : Str) : List MethodInfo :=
  scanMethods content (content.length + 1) 0

/-- The optional `(?:public|protected|private)?\s*` prefix of the class
header regex. -/
def hVis (s : Str) (k : Str → Option α) : Option α :=
  (do
    let s1 ← vis3 s
    k (ws0 s1)) <|> k (ws0 s)

/-- The optional `(?:abstract|final)?\s*` group of the class header
regex (no whitespace required after the keyword). -/
def hAbsFinal (s : Str) (k : Str → Option α) : Option α :=
  (do
    let s1 ← lit (str "abstract") s <|> lit (str "final") s
    k (ws0 s1)) <|> k (ws0 s)

/-- The optional `(?:\s+extends\s+([^{<\s]+))?` group. -/
def hExtends (s : Str) (k : Option Str → Str → Option α) : Option α :=
  (do
    let s1 ← ws1 s
    let s2 ← lit (str "extends") s1
    let s3 ← ws1 s2
    let cls := s3.takeWhile (fun c => !(c == '{' || c == '<' || wsChar c))
    if cls.isEmpty then none else k (some cls) (s3.drop cls.length)) <|> k none s

/-- The optional `(?:\s+implements\s+([^{{]+))?` group. -/
def hImpl (s : Str) (k : Option Str → Str → Option α) : Option α :=
  (do
    let s1 ← ws1 s
    let s2 ← lit (str "implements") s1
    let s3 ← ws1 s2
    let g := s3.takeWhile (· ≠ '{')
    if g.isEmpty then none else k (some g) (s3.drop g.length)) <|> k none s

/-- The class-header regex of `parseJavaContent` tried at one start
position; returns the name, `extends` and `implements` captures. -/
def headerAt (s : Str) : Option (Str × Option Str × Option Str) :=
  hVis s fun s1 =>
  hAbsFinal s1 fun s2 => do
    let s3 ← lit (str "class") s2 <|> lit (str "interface") s2 <|> lit (str "enum") s2
    let s4 ← ws1 s3
    let (nm, s5) ← word1 s4
    hExtends s5 fun g2 s6 =>
    hImpl s6 fun g3 s7 =>
      match ws0 s7 with
      | '{' :: _ => some (nm, g2, g3)
      | _ => none

/-- Leftmost match of the class-header regex (`content.match(...)`). -/
def findHeader : Str → Option (Str × Option Str × Option Str)
  | [] => none
  | s@(_ :: rest) => (headerAt s).orElse fun _ => findHeader rest

/-- Leftmost match of a positional matcher. -/
def firstSome (f : Str → Option α) : Str → Option α
  | [] => none
  | s@(_ :: rest) => (f s).orElse fun _ => firstSome f rest

/-- The `extractClassName` regex
`/(?:public\s+)?(?:abstract\s+|final\s+)?(?:class|interface|enum)\s+(\w+)/`
tried at one position. -/
def classNameAt (s : Str) : Option Str :=
  optKw "public" s fun s1 =>
  optAF s1 fun s2 => do
    let s3 ← lit (str "class") s2 <|> lit (str "interface") s2 <|> lit (str "enum") s2
    let s4 ← ws1 s3
    let (nm, _) ← word1 s4
    some nm

def extractClassName (content : Str) : Option Str := firstSome classNameAt content

/-- The `extractPackage` regex `/package\s+([\w.]+)\s*;/` tried at one
position. -/
def packageAt (s : Str) : Option Str := do
  let s1 ← lit (str "package") s
  let s2 ← ws1 s1
  let nm := s2.takeWhile (fun c => isWordChar c || c == '.')
  if nm.isEmpty then none
  else
    match ws0 (s2.drop nm.length) with
    | ';' :: _ => some nm
    | _ => none

def extractPackage (content : Str) : Str := (firstSome packageAt content).getD []

inductive ClassKind | cls | interface | enum
deriving DecidableEq, Repr

/-- The existence test for `extractClassKind`'s regexes
`(?:public\s+)?(?:abstract\s+|final\s+)?kw\s+\w+`, at one position. -/
def kindTestAt (kw : String) (s : Str) : Bool :=
  (optKw "public" s fun s1 =>
   optAF s1 fun s2 => do
     let s3 ← lit (str kw) s2
     let s4 ← ws1 s3
     let (_, r) ← word1 s4
     some r).isSome

/-- Does a matcher succeed anywhere in the text? -/
def anyPos (p : Str → Bool) : Str → Bool
  | [] => p []
  | s@(_ :: rest) => p s || anyPos p rest

def extractClassKind (content : Str) : ClassKind :=
  if anyPos (kindTestAt "interface") content then .interface
  else if anyPos (kindTestAt "enum") content then .enum
  else .cls

/-- A parsed class declaration. -/
structure ClassInfo where
  kind : ClassKind
  super : Option Str
  interfaces : List Str
  fields : List FieldInfo
  methods : List MethodInfo
  sourcePath : Str
deriving DecidableEq, Repr

/-- The result record of `parseJavaContent`. -/
structure ParsedClass where
  packageName : Str
  className : Str
  fullName : Str
  info : ClassInfo
  rawContent : Str
deriving DecidableEq, Repr

/-- `parseJavaContent(content, filePath)`. -/
def parseJavaContent (content filePath : Str) : Option ParsedClass :=
  let lines := splitOn '\n' content
  let packageName := extractPackage content
  match extractClassName content with
  | none => none
  | some className =>
    let fullName := if packageName = [] then className else packageName ++ str "." ++ className
    let kind := extractClassKind content
    match findHeader content with
    | none => none
    | some (_, g2, g3) =>
      let superClass := g2.map cleanTypeName
      let interfaces :=
        match g3 with
        | none => []
        | some g => ((splitOn ',' g).map (fun x => cleanTypeName (trim x))).filter
            (fun x => !x.isEmpty)
      some { packageName, className, fullName,
             info := { kind, super := superClass, interfaces,
                       fields := extractFields content lines,
                       methods := extractMethods content,
                       sourcePath := filePath.map (fun c => if c = '\\' then '/' else c) },
             rawContent := content }

/-!
## Index store / query layer (`SourceStore`)

The store's external dependencies are collected in `StoreEnv`: the raw
manifest file and the shard files (present or absent), the JSON decoders
(a decoder returning `none` models a deserialization failure), the source
files on disk, and the corpus root directories.  The `packageCache` of the
source is a memoization of `loadPackageIndex` and is observationally
transparent for a fixed environment, so queries are modelled as pure
functions of the environment.
-/

inductive Ns | minecraft | fabric
deriving DecidableEq, Repr

/-- A package shard (`PackageIndex`): simple class name → `ClassInfo`,
in insertion order. -/
structure PackageIndex where
  pkg : Str
  classes : List (Str × ClassInfo)
deriving DecidableEq, Repr

/-- The index manifest (`IndexManifest`). -/
structure IndexManifest where
  minecraftVersion : Str
  fabricApiVersion : Option Str
  generated : Str
  mcPackages : List Str
  fbPackages : List Str

/-- The environment a `SourceStore` reads from. -/
structure StoreEnv where
  manifestRaw : Option Str
  decodeManifest : Str → Option IndexManifest
  shardRaw : Ns → Str → Option Str
  decodeShard : Str → Option PackageIndex
  files : Str → Option Str
  mcSourceDir : Str → Str
  fabricCacheDir : Str → Str

/-- `loadIndexManifest`: `null` when the manifest file is missing or fails
to parse. -/
def loadIndexManifest (env : StoreEnv) : Option IndexManifest :=
  env.manifestRaw.bind env.decodeManifest

/-- `loadPackageIndex`: `null` when the shard file is missing or fails to
parse. -/
def loadPackageIndex (env : StoreEnv) (ns : Ns) (pkg : Str) : Option PackageIndex :=
  (env.shardRaw ns pkg).bind env.decodeShard

/-- `SourceStore.getPackage` (the cache is a memo of `loadPackageIndex`). -/
def getPackage (env : StoreEnv) (ns : Ns) (pkg : Str) : Option PackageIndex :=
  loadPackageIndex env ns pkg

/-- `SourceStore.parseClassName`: split on dots, the last segment is the
simple name; a `net.fabricmc` prefix selects the fabric namespace. -/
def parseClassName (fullName : Str) : Str × Str × Ns :=
  let parts := splitOn '.' fullName
  let ns := if (str "net.fabricmc").isPrefixOf fullName then Ns.fabric else Ns.minecraft
  (List.intercalate (str ".") parts.dropLast, parts.getLastD [], ns)

/-- `SourceStore.resolveSourcePath`: absolute paths pass through; relative
paths are joined onto the corpus root of the resolved namespace (fabric
only when the manifest carries a non-empty fabric version). -/
def resolveSourcePath (env : StoreEnv) (storedPath : Str) (ns : Ns) : Str :=
  if storedPath.headD ' ' = '/' then storedPath
  else
    match loadIndexManifest env with
    | none => storedPath
    | some man =>
      match ns, man.fabricApiVersion with
      | Ns.fabric, some fv =>
        if fv.isEmpty then env.mcSourceDir man.minecraftVersion ++ str "/" ++ storedPath
        else env.fabricCacheDir fv ++ str "/" ++ storedPath
      | _, _ => env.mcSourceDir man.minecraftVersion ++ str "/" ++ storedPath

/-- `SourceStore.readSource`: `null` when the file does not exist. -/
def readSource (env : StoreEnv) (sourcePath : Str) : Option Str :=
  env.files sourcePath

/-- `SourceStore.getClass`: resolve namespace and package, load the shard,
look up the simple name, read the backing source file; `null` at every
failure level. -/
def getClass (env : StoreEnv) (className : Str) : Option (ClassInfo × Str × Str) :=
  match loadIndexManifest env with
  | none => none
  | some _ =>
    let (packageName, simpleClassName, ns) := parseClassName className
    match getPackage env ns packageName with
    | none => none
    | some pkgIndex =>
      match pkgIndex.classes.lookup simpleClassName with
      | none => none
      | some classInfo =>
        let sourcePath := resolveSourcePath env classInfo.sourcePath ns
        match readSource env sourcePath with
        | none => none
        | some source => some (classInfo, source, sourcePath)

/-- The overload selection of `SourceStore.getMethod`: first method with
the exact name, else first method matching case-insensitively. -/
def getMethodPick (methods : List MethodInfo) (methodName : Str) : Option MethodInfo :=
  match methods.find? (fun m => m.name == methodName) with
  | some m => some m
  | none => methods.find? (fun m => lower m.name == lower methodName)

/-- `SourceStore.extractMethodSource`: slice the source's line array from
`max(0, lineStart − 3)` to `min(length, lineEnd + 3)` and re-join. -/
def extractMethodSource (source : Str) (m : MethodInfo) : Str :=
  let lines := splitOn '\n' source
  let startLine := m.lineStart - 3
  let endLine := min lines.length (m.lineEnd + 3)
  List.intercalate (str "\n") ((lines.drop startLine).take (endLine - startLine))

/-- `SourceStore.getMethod`. -/
def getMethod (env : StoreEnv) (className methodName : Str) :
    Option (MethodInfo × Str × ClassInfo × Str) :=
  match getClass env className with
  | none => none
  | some (info, source, sourcePath) =>
    match getMethodPick info.methods methodName with
    | none => none
    | some m => some (m, extractMethodSource source m, info, sourcePath)

/-- The excerpt window asserted by the specification, with 1-based
inclusive bounds `[max(1, lineStart − 3), min(length, lineEnd + 3)]`. -/
def claimedExcerpt (source : Str) (m : MethodInfo) : Str :=
  let lines := splitOn '\n' source
  let first := max 1 (m.lineStart - 3)
  let last := min lines.length (m.lineEnd + 3)
  List.intercalate (str "\n") ((lines.drop (first - 1)).take (last + 1 - first))

/-- The excerpt window the code actually produces, with 1-based inclusive
bounds `[max(1, lineStart − 2), min(length, lineEnd + 3)]`. -/
def amendedExcerpt (source : Str) (m : MethodInfo) : Str :=
  let lines := splitOn '\n' source
  let first := max 1 (m.lineStart - 2)
  let last := min lines.length (m.lineEnd + 3)
  List.intercalate (str "\n") ((lines.drop (first - 1)).take (last + 1 - first))

/-- Search result kinds (`'class' | 'field' | 'method'`). -/
inductive SKind | cls | fld | mth
deriving DecidableEq, Repr

/-- A `SearchResult` record. -/
structure SearchResult where
  kind : SKind
  className : Str
  name : Str
  signature : Option Str
  sourcePath : Str
  lineStart : Option Nat
deriving DecidableEq, Repr

/-- `SourceStore.formatMethodSignature`. -/
def formatMethodSignature (m : MethodInfo) : Str :=
  m.returnType ++ str " " ++ m.name ++ str "(" ++
    List.intercalate (str ", ") (m.params.map (fun p => p.1 ++ str " " ++ p.2)) ++ str ")"

/-- The type-filter gate (`!type || type === k`). -/
def tyOkB (ty : Option SKind) (k : SKind) : Bool :=
  match ty with
  | none => true
  | some k' => k' == k

/-- The match test `name.toLowerCase().includes(queryLower)`. -/
def nameHit (name ql : Str) : Bool := includes (lower name) ql

/-- The class entry pushed by `searchInPackage`. -/
def mkClassEntry (env : StoreEnv) (ns : Ns) (fullName cn : Str) (ci : ClassInfo) : SearchResult :=
  { kind := .cls, className := fullName, name := cn, signature := none,
    sourcePath := resolveSourcePath env ci.sourcePath ns, lineStart := none }

/-- The field entry pushed by `searchInPackage`. -/
def mkFieldEntry (env : StoreEnv) (ns : Ns) (fullName : Str) (ci : ClassInfo)
    (f : FieldInfo) : SearchResult :=
  { kind := .fld, className := fullName, name := f.name,
    signature := some (f.type ++ str " " ++ f.name),
    sourcePath := resolveSourcePath env ci.sourcePath ns, lineStart := none }

/-- The method entry pushed by `searchInPackage`. -/
def mkMethodEntry (env : StoreEnv) (ns : Ns) (fullName : Str) (ci : ClassInfo)
    (m : MethodInfo) : SearchResult :=
  { kind := .mth, className := fullName, name := m.name,
    signature := some (formatMethodSignature m),
    sourcePath := resolveSourcePath env ci.sourcePath ns, lineStart := some m.lineStart }

/-- `SourceStore.searchInPackage`: per class, push the class entry, then
the matching field entries, then the matching method entries. -/
def searchInPackage (env : StoreEnv) (pkgIndex : PackageIndex) (packageName ql : Str)
    (ty : Option SKind) (ns : Ns) : List SearchResult :=
  pkgIndex.classes.flatMap fun cc =>
    let fullName := packageName ++ str "." ++ cc.1
    (if tyOkB ty .cls && nameHit cc.1 ql then [mkClassEntry env ns fullName cc.1 cc.2] else []) ++
    (cc.2.fields.flatMap fun f =>
      if tyOkB ty .fld && nameHit f.name ql then [mkFieldEntry env ns fullName cc.2 f] else []) ++
    (cc.2.methods.flatMap fun m =>
      if tyOkB ty .mth && nameHit m.name ql then [mkMethodEntry env ns fullName cc.2 m] else [])

/-- `SourceStore.search`: lower-case the query, walk every minecraft
package then every fabric package of the manifest, and cap the collected
results at 50. -/
def search (env : StoreEnv) (query : Str) (ty : Option SKind) : List SearchResult :=
  match loadIndexManifest env with
  | none => []
  | some man =>
    let ql := lower query
    ((man.mcPackages.flatMap fun pn =>
        match getPackage env Ns.minecraft pn with
        | none => []
        | some pkgIndex => searchInPackage env pkgIndex pn ql ty Ns.minecraft) ++
      (man.fbPackages.flatMap fun pn =>
        match getPackage env Ns.fabric pn with
        | none => []
        | some pkgIndex => searchInPackage env pkgIndex pn ql ty Ns.fabric)).take 50

/-- Specification-side enumeration: every class, field and method entry of
every loadable package, in encounter order — minecraft manifest packages
then fabric manifest packages, classes in shard order, and within a class
the class entry, then its fields in declaration order, then its methods in
declaration order. -/
def classEntries (env : StoreEnv) (ns : Ns) (packageName : Str)
    (cc : Str × ClassInfo) : List SearchResult :=
  let fullName := packageName ++ str "." ++ cc.1
  [mkClassEntry env ns fullName cc.1 cc.2] ++
    cc.2.fields.map (mkFieldEntry env ns fullName cc.2) ++
    cc.2.methods.map (mkMethodEntry env ns fullName cc.2)

/-- Specification-side enumeration of all searchable entries of the index,
in encounter order. -/
def allEntries (env : StoreEnv) : List SearchResult :=
  match loadIndexManifest env with
  | none => []
  | some man =>
    (man.mcPackages.flatMap fun pn =>
      match getPackage env Ns.minecraft pn with
      | none => []
      | some pkgIndex => pkgIndex.classes.flatMap (classEntries env Ns.minecraft pn)) ++
    (man.fbPackages.flatMap fun pn =>
      match getPackage env Ns.fabric pn with
      | none => []
      | some pkgIndex => pkgIndex.classes.flatMap (classEntries env Ns.fabric pn))

/-- Specification-side match predicate: the type filter accepts the
entry's kind and the entry's own name contains the lower-cased query,
case-insensitively. -/
def searchPred (query : Str) (ty : Option SKind) (e : SearchResult) : Bool :=
  tyOkB ty e.kind && nameHit e.name (lower query)

/-!
## Concrete inputs used by the scenario theorems and witnesses
-/

/-- The dump line of the specification's ingestion scenario. -/
def scenarioLine : Str := str "1\t1\tfoo.Bar:baz()\t(VIR)foo.Qux:quux()\t42\t..."

/-- The record the scenario line must produce. -/
def scenarioRow : CallRow :=
  { callerClass := str "foo.Bar", callerMethod := str "baz", callerDesc := str "()",
    calleeClass := str "foo.Qux", calleeMethod := str "quux", calleeDesc := str "()",
    lineNumber := some 42 }

/-- The rows obtained by ingesting the scenario line. -/
def scenarioRows : List CallRow := (parseCallgraphAndCreateDb scenarioLine).1

/-- A two-line dump whose two caller keys `(a.b, cd)` and `(a.bc, d)` are
distinct pairs but collide under separator-less concatenation. -/
def collideDump : Str :=
  str "1\t1\ta.b:cd()\t(VIR)x:y()\t1\t.\n1\t1\ta.bc:d()\t(VIR)x:y()\t1\t."

def collideRows : List CallRow := (parseCallgraphAndCreateDb collideDump).1

/-- A 20-line source text (each line `l1` … `l20`). -/
def src20 : Str :=
  str "l1\nl2\nl3\nl4\nl5\nl6\nl7\nl8\nl9\nl10\nl11\nl12\nl13\nl14\nl15\nl16\nl17\nl18\nl19\nl20"

/-- A method record spanning lines 10–12 of `src20`. -/
def mGet : MethodInfo :=
  { name := str "m", returnType := str "void", params := [], modifiers := [],
    lineStart := 10, lineEnd := 12 }

/-- A well-formed single-class input with a generic interface reference
and a generic field type. -/
def c2src : Str :=
  str "package t;\npublic class A extends B implements C<D> \x7b\n private List<String> items;\n\x7d\n"

/-- A method preceded by an annotation whose argument contains a brace
pair: the method regex match starts at the annotation, so the brace walk
starts before the signature's opening brace. -/
def c8src : Str := str "@A(\x7bx\x7d)\nvoid f() \x7b\n g();\n\x7d\n"

/-- Two overloadable methods: `Foo` (exact-case mismatch for the query
`foo`) declared before `foo` (exact match). -/
def mUpper : MethodInfo :=
  { name := str "Foo", returnType := str "void", params := [], modifiers := [],
    lineStart := 1, lineEnd := 2 }

def mLowerM : MethodInfo :=
  { name := str "foo", returnType := str "int", params := [], modifiers := [],
    lineStart := 3, lineEnd := 4 }

/-- A class info for the witness environment. -/
def demoMethod : MethodInfo :=
  { name := str "foo", returnType := str "void", params := [], modifiers := [],
    lineStart := 2, lineEnd := 3 }

def demoSource : Str := str "class A \x7b\n void foo() \x7b\n \x7d\n\x7d\n"

def demoCI : ClassInfo :=
  { kind := .cls, super := none, interfaces := [], fields := [],
    methods := [demoMethod], sourcePath := str "/d/A.java" }

/-- A small fully-populated store environment containing the single class
`p.A` backed by `demoSource`. -/
def demoEnv : StoreEnv :=
  { manifestRaw := some (str "M")
    decodeManifest := fun _ => some
      { minecraftVersion := str "1", fabricApiVersion := none, generated := str "",
        mcPackages := [str "p"], fbPackages := [] }
    shardRaw := fun _ _ => some (str "S")
    decodeShard := fun _ => some { pkg := str "p", classes := [(str "A", demoCI)] }
    files := fun p => if p = str "/d/A.java" then some demoSource else none
    mcSourceDir := fun _ => str "/mc"
    fabricCacheDir := fun _ => str "/fb" }

/-- An empty store environment (no manifest at all). -/
def emptyEnv : StoreEnv :=
  { manifestRaw := none, decodeManifest := fun _ => none
    shardRaw := fun _ _ => none, decodeShard := fun _ => none
    files := fun _ => none, mcSourceDir := fun _ => str "/mc"
    fabricCacheDir := fun _ => str "/fb" }

/-!
## Theorems
-/

/-- The batched-insert loop stores exactly the rows `processLine` accepts,
in order, and its flushed count equals the number of rows flushed so
far. -/
lemma ingest_foldl_inv (lines : List Str) :
    ∀ stored batch count, stored.length = count →
      ((lines.foldl ingestStep (stored, batch, count)).1 ++
          (lines.foldl ingestStep (stored, batch, count)).2.1
        = stored ++ batch ++ lines.filterMap processLine)
      ∧ (lines.foldl ingestStep (stored, batch, count)).1.length
        = (lines.foldl ingestStep (stored, batch, count)).2.2 := by
  induction lines with
  | nil => intro s b c h; simpa using h
  | cons l t ih =>
    intro s b c h
    simp only [List.foldl_cons, List.filterMap_cons]
    cases hp : processLine l with
    | none =>
      simp only [ingestStep, hp]
      simpa using ih s b c h
    | some row =>
      simp only [ingestStep, hp]
      by_cases h10 : 10000 ≤ (b ++ [row]).length
      · simp only [if_pos h10]
        have := ih (s ++ (b ++ [row])) [] (c + (b ++ [row]).length)
          (by simp [h])
        simpa [List.append_assoc] using this
      · simp only [if_neg h10]
        have := ih s (b ++ [row]) c h
        simpa [List.append_assoc] using this

/-- C3: ingestion skips blank lines, `#` comment lines, lines with fewer
than five TAB fields, and lines whose caller or callee token fails its
regex; the scenario line `1\t1\tfoo.Bar:baz()\t(VIR)foo.Qux:quux()\t42\t...`
produces exactly the one record
`(foo.Bar, baz, foo.Qux, quux, line 42)`; the stored table is exactly the
accepted rows in order and the returned count is their number. -/
theorem ingest_spec :
    (∀ line : Str, trim line = [] → processLine line = none)
    ∧ (∀ line : Str, line.headD 'x' = '#' → processLine line = none)
    ∧ (∀ line : Str, (splitOn '\t' line).length < 5 → processLine line = none)
    ∧ (∀ line : Str,
        matchCallerTok ((splitOn '\t' line).getD 2 []) = none ∨
          matchCalleeTok ((splitOn '\t' line).getD 3 []) = none →
        processLine line = none)
    ∧ (∀ content : Str,
        (parseCallgraphAndCreateDb content).1 = (splitOn '\n' content).filterMap processLine
        ∧ (parseCallgraphAndCreateDb content).2 = (parseCallgraphAndCreateDb content).1.length)
    ∧ parseCallgraphAndCreateDb scenarioLine = ([scenarioRow], 1) := by
  refine ⟨?_, ?_, ?_, ?_, ?_, ?_⟩
  · intro line h
    have hc : (decide (trim line = []) || decide (line.headD 'x' = '#')) = true := by
      rw [h]; simp
    simp only [processLine]
    rw [if_pos hc]
  · intro line h
    have hc : (decide (trim line = []) || decide (line.headD 'x' = '#')) = true := by
      rw [h]; simp
    simp only [processLine]
    rw [if_pos hc]
  · intro line h
    by_cases hc : (decide (trim line = []) || decide (line.headD 'x' = '#')) = true
    · simp only [processLine]
      rw [if_pos hc]
    · simp only [processLine]
      rw [if_neg hc, if_pos h]
  · intro line h
    by_cases hc : (decide (trim line = []) || decide (line.headD 'x' = '#')) = true
    · simp only [processLine]
      rw [if_pos hc]
    · by_cases h5 : (splitOn '\t' line).length < 5
      · simp only [processLine]
        rw [if_neg hc, if_pos h5]
      · simp only [processLine]
        rw [if_neg hc, if_neg h5]
        rcases h with h | h
        · rw [h]
        · rw [h]
          rcases matchCallerTok ((splitOn '\t' line).getD 2 []) with _ | ⟨c1, m1, d1⟩ <;> rfl
  · intro content
    have H := ingest_foldl_inv (splitOn '\n' content) [] [] 0 rfl
    constructor
    · simpa [parseCallgraphAndCreateDb] using H.1
    · simp only [parseCallgraphAndCreateDb, List.length_append]
      omega
  · decide

/-- Witness for `ingest_spec` at concrete lines. -/
theorem ingest_spec_witness :
    processLine (str "") = none
    ∧ processLine (str "# comment") = none
    ∧ processLine (str "1\t2\t3") = none
    ∧ processLine (str "1\t1\tnoparens\t(VIR)x:y()\t3\t.") = none :=
  ⟨ingest_spec.1 (str "") (by decide),
   ingest_spec.2.1 (str "# comment") (by decide),
   ingest_spec.2.2.1 (str "1\t2\t3") (by decide),
   ingest_spec.2.2.2.1 (str "1\t1\tnoparens\t(VIR)x:y()\t3\t.") (Or.inl (by decide))⟩

/-- C4: `findCallers` fails with the distinguishable store-not-initialized
error when no handle is cached and the requested version's store file is
missing; its rows are exactly caller-side projections of rows whose callee
side equals the query, capped at 100; and on the store ingested from the
scenario line, `findCallers("foo.Qux", "quux")` returns exactly one
`MethodRef` with qualified name `foo.Bar.baz`. -/
theorem findCallers_spec :
    (∀ stores (v cls mth : Str), stores v = none →
        findCallers stores none v cls mth = .error dbMissingMsg)
    ∧ (∀ (rows : List CallRow) (cls mth : Str),
        (findCallersQ rows cls mth).length ≤ 100
        ∧ ∀ ref ∈ findCallersQ rows cls mth, ∃ r ∈ rows,
            r.calleeClass = cls ∧ r.calleeMethod = mth ∧ ref = projCaller r)
    ∧ (∀ v : Str,
        findCallers (fun _ => some scenarioRows) none v (str "foo.Qux") (str "quux")
          = .ok (some v,
              [{ className := str "foo.Bar", methodName := str "baz",
                 descriptor := str "()", fullName := str "foo.Bar.baz",
                 lineNumber := some 42 }])) := by
  refine ⟨?_, ?_, ?_⟩
  · intro stores v cls mth h
    unfold findCallers
    rw [show openDb stores none v = Except.error dbMissingMsg from by
      unfold openDb; rw [h]]
    rfl
  · intro rows cls mth
    constructor
    · simp only [findCallersQ, List.length_map]
      have := List.length_take 100 (rows.filter
        (fun r => decide (r.calleeClass = cls) && decide (r.calleeMethod = mth)))
      omega
    · intro ref href
      simp only [findCallersQ, List.mem_map] at href
      obtain ⟨r, hr, hproj⟩ := href
      have hr' := List.mem_of_mem_take hr
      have hmem := (List.mem_filter.mp hr').1
      have hcond := (List.mem_filter.mp hr').2
      simp only [Bool.and_eq_true, decide_eq_true_eq] at hcond
      exact ⟨r, hmem, hcond.1, hcond.2, hproj.symm⟩
  · intro v
    rfl

/-- Witness for `findCallers_spec` at concrete inputs. -/
theorem findCallers_spec_witness :
    findCallers (fun _ => none) none (str "v") (str "a") (str "b") = .error dbMissingMsg
    ∧ findCallers (fun _ => some scenarioRows) none (str "v") (str "foo.Qux") (str "quux")
        = .ok (some (str "v"),
            [{ className := str "foo.Bar", methodName := str "baz",
               descriptor := str "()", fullName := str "foo.Bar.baz",
               lineNumber := some 42 }]) :=
  ⟨findCallers_spec.1 (fun _ => none) (str "v") (str "a") (str "b") rfl,
   findCallers_spec.2.2 (str "v")⟩

/-- C9: once a handle is cached for version `v1`, `findCallers`,
`findCallees` and `searchMethods` invoked with any version `v2` read
`v1`'s store (the cached handle is returned without consulting the
version argument); `closeDb` resets the handle, as does a successful
stats call. -/
theorem cachedHandle_spec (stores : Str → Option (List CallRow))
    (v1 v2 cls mth q : Str) (lim : Nat) :
    findCallers stores (some v1) v2 cls mth
        = .ok (some v1, findCallersQ (rowsOf stores v1) cls mth)
    ∧ findCallees stores (some v1) v2 cls mth
        = .ok (some v1, findCalleesQ (rowsOf stores v1) cls mth)
    ∧ searchMethods stores (some v1) v2 q lim
        = .ok (some v1, searchMethodsQ (rowsOf stores v1) q lim)
    ∧ closeDb (some v1) = none
    ∧ ((stores v2).isSome →
        getCallgraphStats stores (some v1) v2
          = .ok (none, some (statsQ (rowsOf stores v1)))) := by
  refine ⟨rfl, rfl, rfl, rfl, ?_⟩
  intro h
  obtain ⟨rows, hs⟩ := Option.isSome_iff_exists.mp h
  unfold getCallgraphStats
  rw [hs]
  try rfl

/-- Witness for `cachedHandle_spec` at a concrete store map. -/
theorem cachedHandle_spec_witness :
    getCallgraphStats (fun _ => some scenarioRows) (some (str "v1")) (str "v2")
      = .ok (none, some (statsQ (rowsOf (fun _ => some scenarioRows) (str "v1")))) :=
  (cachedHandle_spec (fun _ => some scenarioRows) (str "v1") (str "v2")
    (str "a") (str "b") (str "c") 5).2.2.2.2 rfl

/-- Distinct-count of a mapped list under a function injective on the
list. -/
lemma dedup_length_map_of_injOn {α β : Type} [DecidableEq α] [DecidableEq β]
    (l : List α) (u : α → β) (h : ∀ a ∈ l, ∀ b ∈ l, u a = u b → a = b) :
    ((l.map u).dedup).length = (l.dedup).length := by
  induction l with
  | nil => rfl
  | cons a t ih =>
    have ht : ∀ x ∈ t, ∀ y ∈ t, u x = u y → x = y := by
      intro x hx y hy
      exact h x (by simp [hx]) y (by simp [hy])
    by_cases ha : a ∈ t
    · rw [List.map_cons, List.dedup_cons_of_mem (List.mem_map_of_mem u ha),
        List.dedup_cons_of_mem ha]
      exact ih ht
    · have hua : u a ∉ t.map u := by
        intro hm
        obtain ⟨b, hb, hub⟩ := List.mem_map.mp hm
        have : b = a := h b (by simp [hb]) a (by simp) hub
        exact ha (this ▸ hb)
      rw [List.map_cons, List.dedup_cons_of_not_mem hua,
        List.dedup_cons_of_not_mem ha]
      simp [ih ht]

/-- C5 counterexample: on the store ingested from `collideDump` the two
caller keys `(a.b, cd)` and `(a.bc, d)` are distinct, yet the
`COUNT(DISTINCT caller_class || caller_method)` aggregate reports 1, so
`distinctCallers` is not the number of distinct caller keys. -/
theorem stats_concat_cex :
    (statsQ collideRows).uniqueCallers = 1
    ∧ distinctCallerKeys collideRows = 2
    ∧ (statsQ collideRows).uniqueCallers ≠ distinctCallerKeys collideRows := by
  refine ⟨by decide, by decide, by decide⟩

/-- C5 amended: `stats()` is `null` when the store file is missing,
`totalEdges` is the exact row count, and `distinctCallers` /
`distinctCallees` equal the number of distinct `(type, method)` keys
whenever no two keys of the store collide under separator-less
concatenation (the aggregates are computed over `class || method`). -/
theorem stats_amended :
    (∀ stores st (v : Str), stores v = none →
        getCallgraphStats stores st v = .ok (st, none))
    ∧ (∀ rows : List CallRow, (statsQ rows).totalCalls = rows.length)
    ∧ (∀ rows : List CallRow,
        (∀ r ∈ rows, ∀ r' ∈ rows,
            r.callerClass ++ r.callerMethod = r'.callerClass ++ r'.callerMethod →
            r.callerClass = r'.callerClass ∧ r.callerMethod = r'.callerMethod) →
        (statsQ rows).uniqueCallers = distinctCallerKeys rows)
    ∧ (∀ rows : List CallRow,
        (∀ r ∈ rows, ∀ r' ∈ rows,
            r.calleeClass ++ r.calleeMethod = r'.calleeClass ++ r'.calleeMethod →
            r.calleeClass = r'.calleeClass ∧ r.calleeMethod = r'.calleeMethod) →
        (statsQ rows).uniqueCallees = distinctCalleeKeys rows) := by
  refine ⟨?_, fun _ => rfl, ?_, ?_⟩
  · intro stores st v h
    unfold getCallgraphStats
    rw [h]
    try rfl
  · intro rows h
    have hmm : rows.map (fun r => r.callerClass ++ r.callerMethod)
        = (rows.map (fun r => (r.callerClass, r.callerMethod))).map (fun p => p.1 ++ p.2) := by
      induction rows with
      | nil => rfl
      | cons a t ih => simp [ih]
    show (rows.map (fun r => r.callerClass ++ r.callerMethod)).dedup.length
      = distinctCallerKeys rows
    rw [hmm]
    refine dedup_length_map_of_injOn _ _ ?_
    intro a ha b hb hab
    obtain ⟨r, hr, hra⟩ := List.mem_map.mp ha
    obtain ⟨r', hr', hrb⟩ := List.mem_map.mp hb
    subst hra hrb
    have := h r hr r' hr' hab
    simp [Prod.ext_iff, this.1, this.2]
  · intro rows h
    have hmm : rows.map (fun r => r.calleeClass ++ r.calleeMethod)
        = (rows.map (fun r => (r.calleeClass, r.calleeMethod))).map (fun p => p.1 ++ p.2) := by
      induction rows with
      | nil => rfl
      | cons a t ih => simp [ih]
    show (rows.map (fun r => r.calleeClass ++ r.calleeMethod)).dedup.length
      = distinctCalleeKeys rows
    rw [hmm]
    refine dedup_length_map_of_injOn _ _ ?_
    intro a ha b hb hab
    obtain ⟨r, hr, hra⟩ := List.mem_map.mp ha
    obtain ⟨r', hr', hrb⟩ := List.mem_map.mp hb
    subst hra hrb
    have := h r hr r' hr' hab
    simp [Prod.ext_iff, this.1, this.2]

/-- Witness for `stats_amended` at concrete inputs. -/
theorem stats_amended_witness :
    getCallgraphStats (fun _ => none) none (str "v") = .ok (none, none)
    ∧ (statsQ scenarioRows).uniqueCallers = distinctCallerKeys scenarioRows :=
  ⟨stats_amended.1 (fun _ => none) none (str "v") rfl,
   stats_amended.2.2.1 scenarioRows (by decide)⟩

/-- Stepping the brace walk past a non-brace character changes nothing but
the newline counter's base. -/
lemma fme_step (content : Str) (i : Nat)
    (h1 : content.getD i ' ' ≠ '{') (h2 : content.getD i ' ' ≠ '}') :
    findMethodEnd content i = findMethodEnd content (i + 1) := by
  by_cases hlt : i < content.length
  · have hd : content.drop i = content.getD i ' ' :: content.drop (i + 1) := by
      rw [List.getD_eq_getElem _ _ hlt]
      exact List.drop_eq_getElem_cons hlt
    have htake : content.take (i + 1) = content.take i ++ [content.getD i ' '] := by
      rw [List.getD_eq_getElem _ _ hlt, List.take_succ, List.getElem?_eq_getElem hlt]
      rfl
    have hone : ∀ (c : Char) (l : List Char),
        countNl (l ++ [c]) = countNl l + (if c = '\n' then 1 else 0) := by
      intro c l
      unfold countNl
      rw [List.filter_append, List.length_append]
      congr 1
      by_cases hn : c = '\n'
      · subst hn
        decide
      · have hb : (c == '\n') = false := beq_eq_false_iff_ne.mpr hn
        rw [if_neg hn]
        simp [List.filter_cons, hb]
    have hnl : countNl (content.take (i + 1)) =
        countNl (content.take i) + (if content.getD i ' ' = '\n' then 1 else 0) := by
      rw [htake, hone]
    unfold findMethodEnd
    rw [hd, hnl]
    simp only [fmeGo]
    rw [if_neg h1, if_neg h2]
    by_cases hn : content.getD i ' ' = '\n'
    · rw [if_pos hn, if_pos hn]
    · rw [if_neg hn, if_neg hn]
      simp
  · have hge : content.length ≤ i := le_of_not_lt hlt
    unfold findMethodEnd
    rw [List.drop_eq_nil_of_le hge, List.drop_eq_nil_of_le (by omega)]
    rfl

/-- Iterated form of `fme_step`. -/
lemma fme_congr (content : Str) : ∀ (d i : Nat),
    (∀ k, i ≤ k → k < i + d →
      content.getD k ' ' ≠ '{' ∧ content.getD k ' ' ≠ '}') →
    findMethodEnd content i = findMethodEnd content (i + d) := by
  intro d
  induction d with
  | zero => intro i _; rfl
  | succ n ih =>
    intro i h
    rw [fme_step content i (h i le_rfl (by omega)).1 (h i le_rfl (by omega)).2]
    have e : i + (n + 1) = (i + 1) + n := by omega
    rw [e]
    exact ih (i + 1) (fun k hk1 hk2 => h k (by omega) (by omega))

/-- The brace walk can only answer a positive (1-based) line number. -/
lemma fmeGo_pos : ∀ (cs : Str) (nl : Nat) (bc : Int) (fo : Bool) (n : Nat),
    fmeGo cs nl bc fo = some n → 1 ≤ n := by
  intro cs
  induction cs with
  | nil => intro nl bc fo n h; simp [fmeGo] at h
  | cons c rest ih =>
    intro nl bc fo n h
    simp only [fmeGo] at h
    split_ifs at h
    · exact ih _ _ _ _ h
    · injection h with h'
      omega
    · exact ih _ _ _ _ h
    · exact ih _ _ _ _ h
    · exact ih _ _ _ _ h

/-- C8 counterexample: the brace walk starts at the beginning of the
whole regex match (`findMethodEnd(content, match.index)`), not at the
opening `\x7b` immediately following the signature.  On `c8src` the match
begins at the annotation `@A(\x7bx\x7d)`, whose argument's brace pair closes the
walk at line 1, so the extracted method `f` is recorded with
`lineEnd = 1`; walking from the signature's opening brace (index 17)
yields line 4 as the claim asserts. -/
theorem methodEnd_walk_cex :
    (extractMethods c8src).map (fun m => (m.name, m.lineStart, m.lineEnd))
        = [(str "f", 1, 1)]
    ∧ c8src.getD 17 ' ' = '{'
    ∧ findMethodEnd c8src 17 = some 4
    ∧ findMethodEnd c8src 0 = some 1
    ∧ (1 : Nat) ≠ 4 :=
  ⟨by decide, by decide, by decide, by decide, by decide⟩

/-- C8 amended: the end line of an extracted method is computed by a
brace-depth walk starting at the beginning of the regex match — which
includes any leading annotations, so it may begin before the opening
brace that follows the signature and can be closed early by a brace pair
inside an annotation argument.  Whenever the text between the walk's
start and the opening brace is brace-free, the walk is equivalent to
starting at that opening brace; a successful walk yields the line at
which the depth returns to zero (always ≥ 1, so the JavaScript `||`
falsy test never overrides it); when no balanced close is found,
`lineEnd` falls back to `lineStart + 10`; and every method record
produced by the scan loop carries such a `lineEnd`. -/
theorem methodLineEnd_spec :
    (∀ (content : Str) (i j : Nat), i ≤ j →
        (∀ k, i ≤ k → k < j →
          content.getD k ' ' ≠ '{' ∧ content.getD k ' ' ≠ '}') →
        findMethodEnd content i = findMethodEnd content j)
    ∧ (∀ (content : Str) (i lineStart : Nat), findMethodEnd content i = none →
        methodLineEnd content i lineStart = lineStart + 10)
    ∧ (∀ (content : Str) (i lineStart n : Nat), findMethodEnd content i = some n →
        methodLineEnd content i lineStart = n)
    ∧ (∀ (content : Str) (fuel pos : Nat) (m : MethodInfo),
        m ∈ scanMethods content fuel pos →
        ∃ idx, m.lineEnd = methodLineEnd content idx m.lineStart)
    ∧ findMethodEnd (str "int f(int x)\n\x7b\n if (x) \x7b g(); \x7d\n return x;\n\x7d\nmore") 0
        = some 5 := by
  refine ⟨?_, ?_, ?_, ?_, by decide⟩
  · intro content i j hij h
    have := fme_congr content (j - i) i
      (fun k hk1 hk2 => h k hk1 (by omega))
    rw [this]
    congr 1
    omega
  · intro content i lineStart h
    unfold methodLineEnd
    rw [h]
    rfl
  · intro content i lineStart n h
    have hpos : 1 ≤ n := fmeGo_pos _ _ _ _ _ h
    unfold methodLineEnd
    rw [h]
    simp only [jsOrNat]
    rw [if_neg (by omega : ¬n = 0)]
  · intro content fuel
    induction fuel with
    | zero => intro pos m hm; simp [scanMethods] at hm
    | succ f ih =>
      intro pos m hm
      simp only [scanMethods] at hm
      rcases hma : methodAt (content.drop pos) with _ | ⟨t, nm, ps, rest⟩
      · rw [hma] at hm
        by_cases hp : pos < content.length
        · rw [if_pos hp] at hm
          exact ih _ m hm
        · rw [if_neg hp] at hm
          simp at hm
      · rw [hma] at hm
        rcases List.mem_append.mp hm with hm1 | hm2
        · split_ifs at hm1
          · simp at hm1
          · simp at hm1
            subst hm1
            exact ⟨pos, rfl⟩
        · exact ih _ m hm2

/-- Witness for `methodLineEnd_spec` at concrete inputs. -/
theorem methodLineEnd_spec_witness :
    findMethodEnd (str "xy\x7b\x7d") 0 = findMethodEnd (str "xy\x7b\x7d") 2
    ∧ methodLineEnd (str "abc") 0 5 = 15
    ∧ methodLineEnd (str "a\x7b\n\x7d") 0 7 = 2 :=
  ⟨methodLineEnd_spec.1 (str "xy\x7b\x7d") 0 2 (by omega)
      (by intro k hk1 hk2; interval_cases k <;> decide),
   methodLineEnd_spec.2.1 (str "abc") 0 5 (by decide),
   methodLineEnd_spec.2.2.1 (str "a\x7b\n\x7d") 0 7 2 (by decide)⟩

/-- `find?` over a split list whose left part has no hit. -/
lemma find?_append_cons {α : Type} {p : α → Bool} : ∀ (l₁ : List α) (m : α) (l₂ : List α),
    (∀ x ∈ l₁, p x = false) → p m = true → (l₁ ++ m :: l₂).find? p = some m := by
  intro l₁
  induction l₁ with
  | nil =>
    intro m l₂ _ hm
    simp [List.find?_cons, hm]
  | cons a t ih =>
    intro m l₂ h hm
    have ha : p a = false := h a (by simp)
    rw [List.cons_append, List.find?_cons, ha]
    exact ih m l₂ (fun x hx => h x (by simp [hx])) hm

/-- C10: among overloads, `getMethod` picks the first method in
declaration order whose name matches exactly; an exact-case match anywhere
in the list is preferred over a case-insensitive one regardless of
position; and only when no exact match exists does the case-insensitive
first match apply. -/
theorem getMethod_overload_pick (ms : List MethodInfo) (nm : Str) :
    (∀ l₁ m l₂, ms = l₁ ++ m :: l₂ → m.name = nm → (∀ x ∈ l₁, x.name ≠ nm) →
        getMethodPick ms nm = some m)
    ∧ ((∃ x ∈ ms, x.name = nm) → ∃ m, getMethodPick ms nm = some m ∧ m.name = nm)
    ∧ ((∀ x ∈ ms, x.name ≠ nm) →
        getMethodPick ms nm = ms.find? (fun m => lower m.name == lower nm)) := by
  refine ⟨?_, ?_, ?_⟩
  · intro l₁ m l₂ hsplit hname hfirst
    have hfind : ms.find? (fun m => m.name == nm) = some m := by
      rw [hsplit]
      refine find?_append_cons l₁ m l₂ ?_ ?_
      · intro x hx
        exact beq_eq_false_iff_ne.mpr (hfirst x hx)
      · exact beq_iff_eq.mpr hname
    simp [getMethodPick, hfind]
  · intro hex
    obtain ⟨x, hx, hxe⟩ := hex
    have hs : (ms.find? (fun m => m.name == nm)).isSome := by
      rw [List.find?_isSome]
      exact ⟨x, hx, beq_iff_eq.mpr hxe⟩
    obtain ⟨m, hm⟩ := Option.isSome_iff_exists.mp hs
    refine ⟨m, ?_, ?_⟩
    · simp [getMethodPick, hm]
    · have hp := List.find?_some hm
      simp only [beq_iff_eq] at hp
      exact hp
  · intro hall
    have hnone : ms.find? (fun m => m.name == nm) = none := by
      rw [List.find?_eq_none]
      intro x hx
      simp only [beq_iff_eq]
      exact hall x hx
    simp [getMethodPick, hnone]

/-- Witness for `getMethod_overload_pick`: exact-case `foo` declared after
`Foo` is still selected. -/
theorem getMethod_overload_pick_witness :
    ∃ m, getMethodPick [mUpper, mLowerM] (str "foo") = some m ∧ m.name = str "foo" :=
  (getMethod_overload_pick [mUpper, mLowerM] (str "foo")).2.1
    ⟨mLowerM, by decide, by decide⟩

/-- C7 counterexample: for a method spanning lines 10–12 the excerpt the
code returns starts at line 8, not at line `lineStart − 3 = 7` as the
specification asserts. -/
theorem excerpt_window_cex :
    extractMethodSource src20 mGet = str "l8\nl9\nl10\nl11\nl12\nl13\nl14\nl15"
    ∧ claimedExcerpt src20 mGet = str "l7\nl8\nl9\nl10\nl11\nl12\nl13\nl14\nl15"
    ∧ extractMethodSource src20 mGet ≠ claimedExcerpt src20 mGet :=
  ⟨by decide, by decide, by decide⟩

/-- The excerpt slice equals the 1-based window
`[max(1, lineStart − 2), min(length, lineEnd + 3)]`. -/
lemma extract_eq_amended (source : Str) (m : MethodInfo) :
    extractMethodSource source m = amendedExcerpt source m := by
  simp only [extractMethodSource, amendedExcerpt]
  have e0 : max 1 (m.lineStart - 2) = (m.lineStart - 3) + 1 := by omega
  rw [e0]
  have e1 : m.lineStart - 3 + 1 - 1 = m.lineStart - 3 := by omega
  have e2 : min (splitOn '\n' source).length (m.lineEnd + 3) + 1 - (m.lineStart - 3 + 1)
      = min (splitOn '\n' source).length (m.lineEnd + 3) - (m.lineStart - 3) := by omega
  rw [e1, e2]

/-- C7 amended: the excerpt spans source lines `lineStart − 2` through
`lineEnd + 3` inclusive, clamped to the file's bounds (so for
`lineStart ≤ 3` it starts at line 1 and never underflows), and every
excerpt returned by `getMethod` is of this form. -/
theorem excerpt_window_amended :
    (∀ (source : Str) (m : MethodInfo),
        extractMethodSource source m = amendedExcerpt source m)
    ∧ (∀ env cls mth m ex ci sp, getMethod env cls mth = some (m, ex, ci, sp) →
        ∃ source, getClass env cls = some (ci, source, sp)
          ∧ ex = amendedExcerpt source m) := by
  refine ⟨extract_eq_amended, ?_⟩
  intro env cls mth m ex ci sp h
  unfold getMethod at h
  split at h
  · simp at h
  · next info source sp' hgc =>
    split at h
    · simp at h
    · next m' hpick =>
      simp only [Option.some_inj, Prod.mk.injEq] at h
      obtain ⟨hm, hex, hci, hsp⟩ := h
      refine ⟨source, ?_, ?_⟩
      · rw [hgc, hci, hsp]
      · rw [← hex, hm]
        exact extract_eq_amended source m

/-- Witness for `excerpt_window_amended` on the demo environment. -/
theorem excerpt_window_amended_witness :
    ∃ source, getClass demoEnv (str "p.A") = some (demoCI, source, str "/d/A.java")
      ∧ extractMethodSource demoSource demoMethod = amendedExcerpt source demoMethod :=
  excerpt_window_amended.2 demoEnv (str "p.A") (str "foo") demoMethod
    (extractMethodSource demoSource demoMethod) demoCI (str "/d/A.java") rfl

/-- `getClass` only observes the environment through the manifest, the
shards, the files and the root directories. -/
lemma getClass_congr (env' env : StoreEnv) (c : Str)
    (hman : loadIndexManifest env' = loadIndexManifest env)
    (hpkg : ∀ ns p, loadPackageIndex env' ns p = loadPackageIndex env ns p)
    (hfiles : env'.files = env.files)
    (hmc : env'.mcSourceDir = env.mcSourceDir)
    (hfb : env'.fabricCacheDir = env.fabricCacheDir) :
    getClass env' c = getClass env c := by
  have hres : ∀ sp ns, resolveSourcePath env' sp ns = resolveSourcePath env sp ns := by
    intro sp ns
    unfold resolveSourcePath
    rw [hman, hmc, hfb]
  unfold getClass readSource getPackage
  rw [hman, hfiles]
  simp only [hpkg, hres]

/-- C1: `getClass` returns `null` (it is a total `Option`-valued function)
at every failure level — missing or corrupt manifest, missing package
shard, unknown simple class name, missing backing source file — and a
shard or manifest that fails to deserialize is treated exactly as if the
artifact were absent. -/
theorem getClass_error_design (env : StoreEnv) (c : Str) :
    (loadIndexManifest env = none → getClass env c = none)
    ∧ (∀ pn sn ns, parseClassName c = (pn, sn, ns) →
        (loadPackageIndex env ns pn = none → getClass env c = none)
        ∧ (∀ pkgIndex, loadPackageIndex env ns pn = some pkgIndex →
            pkgIndex.classes.lookup sn = none → getClass env c = none)
        ∧ (∀ pkgIndex ci, loadPackageIndex env ns pn = some pkgIndex →
            pkgIndex.classes.lookup sn = some ci →
            env.files (resolveSourcePath env ci.sourcePath ns) = none →
            getClass env c = none))
    ∧ (∀ ns0 p0, (∀ s, env.shardRaw ns0 p0 = some s → env.decodeShard s = none) →
        getClass env c = getClass
          { env with shardRaw := fun ns p =>
              if ns = ns0 ∧ p = p0 then none else env.shardRaw ns p } c)
    ∧ ((∀ s, env.manifestRaw = some s → env.decodeManifest s = none) →
        getClass env c = getClass { env with manifestRaw := none } c) := by
  refine ⟨?_, ?_, ?_, ?_⟩
  · intro h
    unfold getClass
    rw [h]
  · intro pn sn ns hp
    refine ⟨?_, ?_, ?_⟩
    · intro h
      cases hm : loadIndexManifest env with
      | none => unfold getClass; rw [hm]
      | some man => simp [getClass, getPackage, hm, hp, h]
    · intro pkgIndex hload hlook
      cases hm : loadIndexManifest env with
      | none => unfold getClass; rw [hm]
      | some man => simp [getClass, getPackage, hm, hp, hload, hlook]
    · intro pkgIndex ci hload hlook hfile
      cases hm : loadIndexManifest env with
      | none => unfold getClass; rw [hm]
      | some man => simp [getClass, getPackage, readSource, hm, hp, hload, hlook, hfile]
  · intro ns0 p0 hcor
    refine (getClass_congr
      { env with shardRaw := fun ns p =>
          if ns = ns0 ∧ p = p0 then none else env.shardRaw ns p }
      env c rfl ?_ rfl rfl rfl).symm
    intro ns p
    show ((if ns = ns0 ∧ p = p0 then none else env.shardRaw ns p).bind env.decodeShard)
      = (env.shardRaw ns p).bind env.decodeShard
    by_cases hc : ns = ns0 ∧ p = p0
    · rw [if_pos hc]
      obtain ⟨rfl, rfl⟩ := hc
      cases hr : env.shardRaw ns p with
      | none => rfl
      | some s => exact (hcor s hr).symm
    · rw [if_neg hc]
  · intro hcor
    have h1 : loadIndexManifest env = none := by
      unfold loadIndexManifest
      cases hmr : env.manifestRaw with
      | none => rfl
      | some s =>
        exact hcor s hmr
    have h2 : loadIndexManifest { env with manifestRaw := none } = none := rfl
    unfold getClass
    rw [h1, h2]

/-- Witness for `getClass_error_design` on concrete environments. -/
theorem getClass_error_design_witness :
    getClass emptyEnv (str "a.B") = none
    ∧ getClass demoEnv (str "p.Missing") = none :=
  ⟨(getClass_error_design emptyEnv (str "a.B")).1 rfl,
   ((getClass_error_design demoEnv (str "p.Missing")).2.1
      (str "p") (str "Missing") Ns.minecraft rfl).2.1
     { pkg := str "p", classes := [(str "A", demoCI)] } rfl (by decide)⟩

/-- `filter` distributes into `flatMap`. -/
lemma filter_flatMap {α β : Type} (p : β → Bool) (g : α → List β) :
    ∀ l : List α, (l.flatMap g).filter p = l.flatMap fun a => (g a).filter p := by
  intro l
  induction l with
  | nil => rfl
  | cons a t ih => rw [List.flatMap_cons, List.flatMap_cons, List.filter_append, ih]

/-- The conditional-push loop over fields equals a filter of the mapped
entries. -/
lemma field_entries_eq (env : StoreEnv) (ns : Ns) (fn : Str) (ci : ClassInfo)
    (ql : Str) (ty : Option SKind) : ∀ fs : List FieldInfo,
    (fs.flatMap fun f =>
        if tyOkB ty .fld && nameHit f.name ql then [mkFieldEntry env ns fn ci f] else [])
      = (fs.map (mkFieldEntry env ns fn ci)).filter
          (fun e => tyOkB ty e.kind && nameHit e.name ql) := by
  intro fs
  induction fs with
  | nil => rfl
  | cons f t ih =>
    rw [List.flatMap_cons, List.map_cons, List.filter_cons]
    by_cases h : (tyOkB ty SKind.fld && nameHit f.name ql) = true
    · have h' : (tyOkB ty (mkFieldEntry env ns fn ci f).kind
          && nameHit (mkFieldEntry env ns fn ci f).name ql) = true := h
      rw [if_pos h, if_pos h', ih]
      rfl
    · have h' : ¬(tyOkB ty (mkFieldEntry env ns fn ci f).kind
          && nameHit (mkFieldEntry env ns fn ci f).name ql) = true := h
      rw [if_neg h, if_neg h', ih]
      rfl

/-- The conditional-push loop over methods equals a filter of the mapped
entries. -/
lemma method_entries_eq (env : StoreEnv) (ns : Ns) (fn : Str) (ci : ClassInfo)
    (ql : Str) (ty : Option SKind) : ∀ ms : List MethodInfo,
    (ms.flatMap fun m =>
        if tyOkB ty .mth && nameHit m.name ql then [mkMethodEntry env ns fn ci m] else [])
      = (ms.map (mkMethodEntry env ns fn ci)).filter
          (fun e => tyOkB ty e.kind && nameHit e.name ql) := by
  intro ms
  induction ms with
  | nil => rfl
  | cons m t ih =>
    rw [List.flatMap_cons, List.map_cons, List.filter_cons]
    by_cases h : (tyOkB ty SKind.mth && nameHit m.name ql) = true
    · have h' : (tyOkB ty (mkMethodEntry env ns fn ci m).kind
          && nameHit (mkMethodEntry env ns fn ci m).name ql) = true := h
      rw [if_pos h, if_pos h', ih]
      rfl
    · have h' : ¬(tyOkB ty (mkMethodEntry env ns fn ci m).kind
          && nameHit (mkMethodEntry env ns fn ci m).name ql) = true := h
      rw [if_neg h, if_neg h', ih]
      rfl

/-- `searchInPackage` equals the encounter-order enumeration of the
package filtered by the match predicate. -/
lemma searchInPackage_eq (env : StoreEnv) (pkgIndex : PackageIndex) (pn ql : Str)
    (ty : Option SKind) (ns : Ns) :
    searchInPackage env pkgIndex pn ql ty ns
      = (pkgIndex.classes.flatMap (classEntries env ns pn)).filter
          (fun e => tyOkB ty e.kind && nameHit e.name ql) := by
  rw [filter_flatMap]
  simp only [searchInPackage, classEntries]
  congr 1
  funext cc
  rw [List.filter_append, List.filter_append,
    ← field_entries_eq env ns (pn ++ str "." ++ cc.1) cc.2 ql ty cc.2.fields,
    ← method_entries_eq env ns (pn ++ str "." ++ cc.1) cc.2 ql ty cc.2.methods]
  congr 1
  rw [List.filter_cons]
  by_cases h : (tyOkB ty SKind.cls && nameHit cc.1 ql) = true
  · have h' : (tyOkB ty (mkClassEntry env ns (pn ++ str "." ++ cc.1) cc.1 cc.2).kind
        && nameHit (mkClassEntry env ns (pn ++ str "." ++ cc.1) cc.1 cc.2).name ql)
        = true := h
    rw [if_pos h, if_pos h']
    rfl
  · have h' : ¬(tyOkB ty (mkClassEntry env ns (pn ++ str "." ++ cc.1) cc.1 cc.2).kind
        && nameHit (mkClassEntry env ns (pn ++ str "." ++ cc.1) cc.1 cc.2).name ql)
        = true := h
    rw [if_neg h, if_neg h']
    rfl

/-- C6: `search` performs a case-insensitive substring match against
class, field and method names over every loadable package of both
namespaces, returning at most 50 results in pure encounter order —
minecraft manifest packages before fabric ones, classes in shard order,
and within a class the class entry, its fields, then its methods, with no
other ranking: it equals the filtered encounter-order enumeration
truncated to 50. -/
theorem search_encounter_order (env : StoreEnv) (q : Str) (ty : Option SKind) :
    search env q ty = ((allEntries env).filter (searchPred q ty)).take 50 := by
  cases hm : loadIndexManifest env with
  | none => simp [search, allEntries, hm]
  | some man =>
    simp only [search, allEntries, searchPred, hm]
    congr 1
    rw [List.filter_append]
    congr 1
    · rw [filter_flatMap]
      congr 1
      funext pn
      cases hp : getPackage env Ns.minecraft pn with
      | none => rfl
      | some pkgIndex => exact searchInPackage_eq env pkgIndex pn (lower q) ty Ns.minecraft
    · rw [filter_flatMap]
      congr 1
      funext pn
      cases hp : getPackage env Ns.fabric pn with
      | none => rfl
      | some pkgIndex => exact searchInPackage_eq env pkgIndex pn (lower q) ty Ns.fabric

/-- C2 counterexample: `cleanTypeName` deletes only the bracket
characters, so the referenced type `List<String>` is recorded as
`ListString`, not `List`; on the concrete single-class input `c2src` the
parsed field type is `ListString` and the generic interface `C<D>` is
recorded as `CD`. -/
theorem parse_generic_cex :
    cleanTypeName (str "List<String>") = str "ListString"
    ∧ cleanTypeName (str "List<String>") ≠ str "List"
    ∧ ((parseJavaContent c2src (str "A.java")).map
        (fun p => (p.info.super, p.info.interfaces, p.info.fields.map (fun f => f.type))))
        = some (some (str "B"), [str "CD"], [str "ListString"])
    ∧ (str "CD" : Str) ≠ str "C" :=
  ⟨by decide, by decide, by decide, by decide⟩

/-- C2 amended: `parse` records the supertype and interface list exactly
as captured by the class-header regex, normalized by `cleanTypeName`,
which deletes the characters `<`, `>`, `[`, `]` and whitespace (keeping
generic parameter text concatenated into the name) and keeps the first
dot-segment; so `List<String>` is recorded as `ListString` while
`java.util.List[]` is recorded as `java`, and a non-fallback normalized
name never contains a bracket, whitespace, or a dot. -/
theorem typeName_normalization_amended :
    (∀ content path p, parseJavaContent content path = some p →
        ∃ nm g2 g3, findHeader content = some (nm, g2, g3)
          ∧ p.info.super = g2.map cleanTypeName
          ∧ p.info.interfaces = (match g3 with
              | none => []
              | some g => ((splitOn ',' g).map (fun x => cleanTypeName (trim x))).filter
                  (fun x => !x.isEmpty)))
    ∧ (∀ t : Str, ∀ c ∈ cleanTypeName t,
        ¬(((t.filter (fun c => !(c == '<' || c == '>' || c == '[' || c == ']'))).filter
            (fun c => !wsChar c)).takeWhile (· ≠ '.')).isEmpty →
        c ≠ '<' ∧ c ≠ '>' ∧ c ≠ '[' ∧ c ≠ ']' ∧ ¬wsChar c ∧ c ≠ '.')
    ∧ cleanTypeName (str "List<String>") = str "ListString"
    ∧ cleanTypeName (str "java.util.List[]") = str "java"
    ∧ ((parseJavaContent c2src (str "A.java")).map
        (fun p => (p.info.super, p.info.interfaces, p.info.fields.map (fun f => f.type))))
        = some (some (str "B"), [str "CD"], [str "ListString"]) := by
  refine ⟨?_, ?_, by decide, by decide, by decide⟩
  · intro content path p h
    unfold parseJavaContent at h
    split at h
    · simp at h
    · next className hcn =>
      split at h
      · simp at h
      · next nm g2 g3 hh =>
        simp only [Option.some_inj] at h
        subst h
        exact ⟨nm, g2, g3, hh, rfl, rfl⟩
  · intro t c hc hne
    have hclean : cleanTypeName t
        = ((t.filter (fun c => !(c == '<' || c == '>' || c == '[' || c == ']'))).filter
            (fun c => !wsChar c)).takeWhile (· ≠ '.') := by
      unfold cleanTypeName
      rw [if_neg hne]
    rw [hclean] at hc
    have hdot : c ≠ '.' := by
      have := List.mem_takeWhile_imp hc
      simpa using this
    have hmem2 := (List.takeWhile_sublist (fun x => decide (x ≠ '.'))).subset hc
    have hws : (!wsChar c) = true := (List.mem_filter.mp hmem2).2
    have hmem1 := (List.mem_filter.mp hmem2).1
    have hbr : (!(c == '<' || c == '>' || c == '[' || c == ']')) = true :=
      (List.mem_filter.mp hmem1).2
    simp only [Bool.not_eq_true', Bool.or_eq_false_iff, beq_eq_false_iff_ne] at hbr
    refine ⟨hbr.1.1.1, hbr.1.1.2, hbr.1.2, hbr.2, ?_, hdot⟩
    simp only [Bool.not_eq_true'] at hws
    simp [hws]

/-- The parsed value of `c2src`. -/
def c2p : ParsedClass :=
  { packageName := str "t", className := str "A", fullName := str "t.A",
    info := { kind := .cls, super := some (str "B"), interfaces := [str "CD"],
              fields := [{ name := str "items", type := str "ListString",
                           modifiers := [str "private"] }],
              methods := [], sourcePath := str "A.java" },
    rawContent := c2src }

/-- Witness for `typeName_normalization_amended` at concrete inputs. -/
theorem typeName_normalization_amended_witness :
    (∃ nm g2 g3, findHeader c2src = some (nm, g2, g3)
      ∧ c2p.info.super = g2.map cleanTypeName
      ∧ c2p.info.interfaces = (match g3 with
          | none => []
          | some g => ((splitOn ',' g).map (fun x => cleanTypeName (trim x))).filter
              (fun x => !x.isEmpty)))
    ∧ ('L' ≠ '<' ∧ 'L' ≠ '>' ∧ 'L' ≠ '[' ∧ 'L' ≠ ']' ∧ ¬wsChar 'L' ∧ 'L' ≠ '.') :=
  ⟨typeName_normalization_amended.1 c2src (str "A.java") c2p (by decide),
   typeName_normalization_amended.2.1 (str "List<String>") 'L' (by decide) (by decide)⟩

end Mcdev
